import Mathlib

/-!
Verification development for a Minecraft protocol-aware TCP reverse proxy
(`mc-proxy-ec2.js` router and the companion `proxy.js` whitelist/rate-limit
variant).  The JavaScript sources are shallowly embedded: byte buffers are
`List Nat`, JavaScript strings are `List Char`, machine integers follow JS
semantics (`|`/`<<` operate on 32-bit two's complement; we track the unsigned
representative in `Nat` and convert with `toInt32`), time is milliseconds as
`Nat`, and the per-connection `data` handler is a state machine whose atomic
segments (the synchronous stretches between `await` points of the JS event
loop) are explicit transition functions.
-/

set_option maxRecDepth 10000

/-- Signed 32-bit interpretation of a natural number, as JS `|0` produces. -/
def toInt32 (n : Nat) : Int :=
  if n % 4294967296 < 2147483648 then ((n % 4294967296 : Nat) : Int)
  else ((n % 4294967296 : Nat) : Int) - 4294967296

/-
`readVarInt(buf, offset)` from mc-proxy-ec2.js lines 53-66:

    function readVarInt(buf, offset = 0) {
      let numRead = 0; let result = 0; let read;
      do {
        if (offset + numRead >= buf.length) return null; // incomplete
        read = buf[offset + numRead];
        const value = (read & 0b01111111);
        result |= (value << (7 * numRead));
        numRead++;
        if (numRead > 5) throw new Error('VarInt too big');
      } while ((read & 0b10000000) !== 0);
      return { value: result, size: numRead };
    }

`Except.error ()` models the thrown exception, `.ok none` the `null`
(incomplete) return, `.ok (some (value, size))` the success object.
JS `<<` masks the shift count to 5 bits and `|`/`<<` truncate to 32 bits;
we keep the unsigned 32-bit representative and convert at the end.
The loop body runs at most 6 times (the 6th iteration throws), so a fuel
of 6 makes the recursion structural; the fuel-0 branch is unreachable.
-/
def readVarIntAux (buf : List Nat) (off : Nat) :
    Nat → Nat → Nat → Except Unit (Option (Int × Nat))
  | 0, _, _ => Except.error ()
  | fuel + 1, numRead, result =>
    if buf.length ≤ off + numRead then Except.ok none
    else
      let read := buf.getD (off + numRead) 0
      let value := read &&& 127
      let result2 := result ||| ((value <<< ((7 * numRead) % 32)) % 4294967296)
      if numRead + 1 > 5 then Except.error ()
      else if read &&& 128 ≠ 0 then readVarIntAux buf off fuel (numRead + 1) result2
      else Except.ok (some (toInt32 result2, numRead + 1))

def readVarInt (buf : List Nat) (off : Nat) : Except Unit (Option (Int × Nat)) :=
  readVarIntAux buf off 6 0 0

/-- Possible outcomes of one parse attempt of the accumulated buffer inside
`onClientData` (mc-proxy-ec2.js lines 212-302): `more` models the early
`return`s awaiting more data, `err` the thrown `VarInt too big` reaching the
`catch`, and `done rawHost` a complete handshake whose host field bytes are
`rawHost`. -/
inductive ParseOut
  | more
  | err
  | done (rawHost : List Nat)
deriving DecidableEq, Repr

/-
The parsing cascade of `onClientData`:

    const lenInfo = readVarInt(buffer, 0);            if (!lenInfo) return;
    if (buffer.length < lenSize + packetLength) return;
    const idInfo = readVarInt(buffer, lenSize);       if (!idInfo) return;
    const pvInfo = readVarInt(buffer, afterId);       if (!pvInfo) return;
    const hostLenInfo = readVarInt(buffer, afterPv);  if (!hostLenInfo) return;
    if (buffer.length < hostEnd) return;
    const rawServerAddress = buffer.slice(hostStart, hostEnd).toString('utf8');

Comparisons involving varint values happen in `Int` (JS numbers may be
negative after 32-bit truncation).  `Buffer.slice` is modelled with
`drop`/`take`; JS interprets a negative end relative to the buffer end, the
claims are only evaluated on handshakes whose fields are nonnegative.
-/
def parseHandshake (buffer : List Nat) : ParseOut :=
  match readVarInt buffer 0 with
  | .error _ => .err
  | .ok none => .more
  | .ok (some (packetLength, lenSize)) =>
    if (buffer.length : Int) < (lenSize : Int) + packetLength then .more
    else
      match readVarInt buffer lenSize with
      | .error _ => .err
      | .ok none => .more
      | .ok (some (_, idSize)) =>
        match readVarInt buffer (lenSize + idSize) with
        | .error _ => .err
        | .ok none => .more
        | .ok (some (_, pvSize)) =>
          let afterPv := lenSize + idSize + pvSize
          match readVarInt buffer afterPv with
          | .error _ => .err
          | .ok none => .more
          | .ok (some (hostLen, hostLenSize)) =>
            let hostStart := afterPv + hostLenSize
            if (buffer.length : Int) < (hostStart : Int) + hostLen then .more
            else .done ((buffer.drop hostStart).take hostLen.toNat)

/-- `true` iff the buffer parses to a complete packet whose length prefix
accounts for exactly the whole buffer (`buffer.length = lenSize +
packetLength`): the buffer is one handshake packet and nothing more. -/
def packetExact (buffer : List Nat) : Bool :=
  match readVarInt buffer 0 with
  | .ok (some (packetLength, lenSize)) =>
    ((lenSize : Int) + packetLength == (buffer.length : Int))
  | _ => false

/-
`normalizeHost(h)` from mc-proxy-ec2.js lines 68-79:

    function normalizeHost(h) {
      if (!h) return h;
      let host = h.trim().toLowerCase();
      if (host.endsWith('.')) host = host.slice(0, -1);
      const colonIdx = host.lastIndexOf(':');
      if (colonIdx !== -1 && /^\d+$/.test(host.slice(colonIdx + 1))) {
        host = host.slice(0, colonIdx);
      }
      if (host.startsWith('www.')) host = host.slice(4);
      return host;
    }

Strings are `List Char`.  `trim` removes ASCII whitespace (JS also trims
some Unicode space characters; the claims only involve ASCII hosts), and
`toLowerCase` is modelled by `Char.toLower`, which lowers exactly A-Z.
-/
def isJsSpace (c : Char) : Bool :=
  c = ' ' || c = '\t' || c = '\n' || c = '\r' || c = '\x0b' || c = '\x0c'

def trimChars (l : List Char) : List Char :=
  ((l.dropWhile isJsSpace).reverse.dropWhile isJsSpace).reverse

def toLowerChars (l : List Char) : List Char :=
  l.map Char.toLower

/-- `if (host.endsWith('.')) host = host.slice(0, -1);` -/
def dropTrailingDot (l : List Char) : List Char :=
  if l.getLast? = some '.' then l.dropLast else l

/-- The `lastIndexOf(':')` / `^\d+$` port-stripping step.  `lastIndexOf`
finds a colon iff one occurs; the characters after the last colon are the
ones before the first colon of the reversed string. -/
def stripPortSuffix (l : List Char) : List Char :=
  if ':' ∈ l then
    let suf := l.reverse.takeWhile (fun c => c ≠ ':')
    if suf ≠ [] ∧ ∀ c ∈ suf, c.isDigit then (l.reverse.drop (suf.length + 1)).reverse
    else l
  else l

/-- `if (host.startsWith('www.')) host = host.slice(4);` -/
def dropWww (l : List Char) : List Char :=
  if ("www.".data).isPrefixOf l then l.drop 4 else l

def normalizeHost (h : List Char) : List Char :=
  if h = [] then h
  else dropWww (stripPortSuffix (dropTrailingDot (toLowerChars (trimChars h))))

/-- Route table values: `{ type, host?, port? }` as found in routes.json. -/
structure RouteV where
  type : List Char
  host : Option (List Char)
  port : Option Nat
deriving DecidableEq, Repr

/-- `pattern.startsWith('*.') && host.endsWith(pattern.slice(1))` — the
wildcard stage of `findRouteFor` (mc-proxy-ec2.js lines 93-98). -/
def wildcardMatch (pattern : List Char) (host : List Char) : Bool :=
  (['*', '.'].isPrefixOf pattern) && (pattern.drop 1).isSuffixOf host

/-- `!pattern.includes('*') && pattern.split('.').length >= 2 &&
(host === pattern || host.endsWith('.' + pattern))` — the bare-suffix stage
(lines 101-105).  `split('.').length` equals the dot count plus one. -/
def bareMatch (pattern : List Char) (host : List Char) : Bool :=
  (!pattern.contains '*') && decide (2 ≤ pattern.count '.' + 1) &&
    (host == pattern || ('.' :: pattern).isSuffixOf host)

/-
`findRouteFor(host)` from mc-proxy-ec2.js lines 88-108.  The JS object
`ROUTES` is modelled as an association list in key insertion order (the
order `Object.keys` yields for the non-integer-like hostname keys); the
`for ... of Object.keys` loops are first-match searches.
-/
def findRouteFor (routes : List (List Char × RouteV)) (host : List Char) :
    Option RouteV :=
  if host = [] then none
  else
    match routes.find? (fun kv => kv.fst == host) with
    | some kv => some kv.snd
    | none =>
      match routes.find? (fun kv => wildcardMatch kv.fst host) with
      | some kv => some kv.snd
      | none =>
        match routes.find? (fun kv => bareMatch kv.fst host) with
        | some kv => some kv.snd
        | none => none

/-- `Buffer.toString('utf8')` restricted to the ASCII range used by the
claims: each byte becomes the code point of one character. -/
def asciiDecode (bs : List Nat) : List Char :=
  bs.map Char.ofNat

/-- Observable side effects of one connection's handler: an outgoing backend
connection fed `bytes` (`proxyToBackend(buffer, client, host, port, ...)`),
a friendly-kick connection fed `bytes` (`proxyToLocalKick(buffer, ...)`,
itself `proxyToBackend` aimed at the local kick responder), the
`client.end()` of the parse-error catch, and a `startInstanceBackground`
invocation. -/
inductive Act
  | backend (bytes : List Nat) (host : List Char) (port : Nat)
  | kick (bytes : List Nat)
  | closeErr
  | startBg
deriving DecidableEq, Repr

/-- Per-connection state of the `net.createServer` handler
(mc-proxy-ec2.js lines 204-307): the accumulated `buffer`, the `routed`
flag, the number of `describeInstance()` calls currently awaited (the `ec2`
branch suspends at `await describeInstance()` before setting `routed`), and
the side effects emitted so far. -/
structure MState where
  buffer : List Nat
  routed : Bool
  pending : Nat
  acts : List Act
deriving DecidableEq, Repr

/-- Result of an awaited `describeInstance()`: a rejection, or a resolution
carrying `state === 'running'` and the (possibly absent) host. -/
inductive DescribeRes
  | failed
  | ok (running : Bool) (host : Option (List Char))
deriving DecidableEq, Repr

/-- Events of one connection, in JS event-loop order: a `data` chunk
(running the synchronous part of `onClientData` up to a possible `await`),
or the resolution of the oldest awaited `describeInstance()` (running the
rest of that invocation). -/
inductive Ev
  | data (chunk : List Nat)
  | describeDone (res : DescribeRes)

def mInit : MState := { buffer := [], routed := false, pending := 0, acts := [] }

/-
One atomic event-loop segment of `onClientData`.

`data` chunk (lines 208-247, 283-302): `if (routed) return;` then
`buffer = Buffer.concat([buffer, chunk]);` then the parse cascade; on a
complete packet the host is normalized, looked up, and the connection is
kicked (no route / unknown type), proxied (local route), or — for an `ec2`
route — the handler suspends at `await describeInstance()` with `routed`
still false.

`describeDone` (lines 250-282): the resumed handler does NOT re-check
`routed`; it proxies to the instance host when running, kicks on a describe
failure, or fires `startInstanceBackground` plus a kick otherwise, reading
the `buffer` variable at resume time.
-/
def stepM (routes : List (List Char × RouteV)) (st : MState) (ev : Ev) : MState :=
  match ev with
  | .data chunk =>
    if st.routed then st
    else
      let buffer := st.buffer ++ chunk
      match parseHandshake buffer with
      | .more => { st with buffer := buffer }
      | .err =>
        { st with buffer := buffer, routed := true, acts := st.acts ++ [Act.closeErr] }
      | .done rawHost =>
        let serverAddress := normalizeHost (asciiDecode rawHost)
        match findRouteFor routes serverAddress with
        | none =>
          { st with buffer := buffer, routed := true, acts := st.acts ++ [Act.kick buffer] }
        | some route =>
          if route.type = "ec2".data then
            { st with buffer := buffer, pending := st.pending + 1 }
          else if route.type = "local".data then
            { st with
              buffer := buffer, routed := true,
              acts := st.acts ++
                [Act.backend buffer (route.host.getD ("127.0.0.1".data)) (route.port.getD 25565)] }
          else
            { st with buffer := buffer, routed := true, acts := st.acts ++ [Act.kick buffer] }
  | .describeDone res =>
    if st.pending = 0 then st
    else
      let st1 := { st with pending := st.pending - 1 }
      match res with
      | .failed =>
        { st1 with routed := true, acts := st1.acts ++ [Act.kick st1.buffer] }
      | .ok running host =>
        match running, host with
        | true, some h =>
          { st1 with routed := true, acts := st1.acts ++ [Act.backend st1.buffer h 25565] }
        | _, _ =>
          { st1 with
            routed := true,
            acts := st1.acts ++ [Act.startBg, Act.kick st1.buffer] }

def runM (routes : List (List Char × RouteV)) (evs : List Ev) : MState :=
  evs.foldl (stepM routes) mInit

/-- `proxyToBackend` (mc-proxy-ec2.js lines 172-196) writes the buffered
handshake first (`backend.write(buffer)`) and only then splices
(`client.pipe(backend)`): the byte stream the backend receives is the
buffered bytes followed by whatever the client sends afterwards. -/
def proxyToBackendBytes (buffer rest : List Nat) : List Nat :=
  buffer ++ rest

/-- A routing decision observable: an outgoing backend or friendly-kick
connection, or the error close — everything except `startBg`. -/
def isDecision : Act → Bool
  | .backend _ _ _ => true
  | .kick _ => true
  | .closeErr => true
  | .startBg => false

def decisions (st : MState) : Nat :=
  (st.acts.filter isDecision).length

def countDescribes (evs : List Ev) : Nat :=
  (evs.filter (fun e => match e with | .describeDone _ => true | _ => false)).length

/-
Per-IP token bucket from proxy.js lines 86-125.  A single IP's map entry is
`Option Bucket`; `Date.now()` is the `now` argument.  JS computes
`Math.floor(elapsed / T)` on a possibly negative `elapsed` and then skips
the refill unless `steps > 0`; with `Nat` subtraction a negative elapsed
truncates to 0 and likewise yields `steps = 0`, so the behaviour matches.
-/
def TOKEN_REFILL_INTERVAL_MS : Nat := 15 * 1000

def TOKENS_PER_REFILL : Nat := 1

def MAX_TOKENS : Nat := 3

def START_ALLOWED_TOKENS : Nat := 1

structure Bucket where
  tokens : Nat
  lastRefill : Nat
deriving DecidableEq, Repr

/-- `ensureBucket(ip)`: create `{ tokens: START_ALLOWED_TOKENS, lastRefill: Date.now() }`
if the IP has no bucket. -/
def ensureBucket (now : Nat) (b : Option Bucket) : Bucket :=
  b.getD { tokens := START_ALLOWED_TOKENS, lastRefill := now }

/-- `refillBucket(ip)` (proxy.js lines 105-115). -/
def refillBucket (now : Nat) (b : Bucket) : Bucket :=
  let elapsed := now - b.lastRefill
  let steps := elapsed / TOKEN_REFILL_INTERVAL_MS
  if steps > 0 then
    { tokens := min MAX_TOKENS (b.tokens + steps * TOKENS_PER_REFILL),
      lastRefill := b.lastRefill + steps * TOKEN_REFILL_INTERVAL_MS }
  else b

/-- `consumeToken(ip)` (proxy.js lines 116-125): ensure, refill, then take a
token iff at least one is available.  Returns the JS boolean and the updated
bucket. -/
def consumeToken (now : Nat) (b : Option Bucket) : Bool × Bucket :=
  let b2 := refillBucket now (ensureBucket now b)
  if b2.tokens ≥ 1 then (true, { b2 with tokens := b2.tokens - 1 })
  else (false, b2)

/-
Failure counters and temporary bans from proxy.js lines 93-152.  A single
IP's entries of `failCounts` and `BAN_MAP` are `Option FailState` and
`Option Nat` (the unban timestamp).
-/
def FAIL_MAX : Nat := 5

def FAIL_WINDOW_MS : Nat := 10 * 60 * 1000

def BAN_DURATION_MS : Nat := 30 * 60 * 1000

structure FailState where
  count : Nat
  firstFailTs : Nat
deriving DecidableEq, Repr

/-- `recordFail(ip)` (proxy.js lines 126-143): restart the window at count 1
when more than `FAIL_WINDOW_MS` has elapsed since `firstFailTs`, otherwise
increment; on reaching `FAIL_MAX`, ban until `now + BAN_DURATION_MS` and
delete the failure record. -/
def recordFail (now : Nat) (fc : Option FailState) (ban : Option Nat) :
    Option FailState × Option Nat :=
  let st0 := fc.getD { count := 0, firstFailTs := now }
  let st :=
    if now - st0.firstFailTs > FAIL_WINDOW_MS then
      { count := 1, firstFailTs := now }
    else { st0 with count := st0.count + 1 }
  if st.count ≥ FAIL_MAX then (none, some (now + BAN_DURATION_MS))
  else (some st, ban)

/-- `isBanned(ip)` (proxy.js lines 144-152): an expired ban is deleted and
reported as not banned. -/
def isBanned (now : Nat) (ban : Option Nat) : Bool × Option Nat :=
  match ban with
  | none => (false, none)
  | some ts => if now > ts then (false, none) else (true, some ts)

/-- Fold a list of failure timestamps through `recordFail`, starting from no
record and no ban. -/
def runFailTrace (ts : List Nat) : Option FailState × Option Nat :=
  ts.foldl (fun acc t => recordFail t acc.1 acc.2) (none, none)

/-
Idle shutdown scheduling from proxy.js: `scheduleShutdownTimer` /
`cancelShutdownTimer` (lines 369-383) and their call sites in
`switchToTcpForwardMode` (lines 323-344).  The state tracks the active
forwarded-socket count, the armed timer's absolute deadline, and the number
of `stopInstance()` calls made by the timer callback.
-/
def SHUTDOWN_IDLE_MINUTES : Nat := 10

def SHUTDOWN_IDLE_MS : Nat := SHUTDOWN_IDLE_MINUTES * 60000

structure SchedSt where
  active : Nat
  timer : Option Nat
  stops : Nat
deriving DecidableEq, Repr

def schedInit : SchedSt := { active := 0, timer := none, stops := 0 }

/-- Fire the armed timer if its deadline has passed by time `t`: the
callback clears `shutdownTimer`, re-checks `activeSockets.size === 0`, and
only then calls `stopInstance()` (proxy.js lines 372-379). -/
def fireTimer (t : Nat) (st : SchedSt) : SchedSt :=
  match st.timer with
  | none => st
  | some d =>
    if d ≤ t then
      if st.active = 0 then { st with timer := none, stops := st.stops + 1 }
      else { st with timer := none }
    else st

/-- A session event at absolute time `t`: a client connection (which calls
`cancelShutdownTimer()` and, once the backend socket connects, joins
`activeSockets`), or a session teardown (`cleanup`: leave `activeSockets`,
and `if (activeSockets.size === 0) scheduleShutdownTimer()`, which is a
no-op when a timer is already armed). -/
inductive SchedEv
  | connect (t : Nat)
  | disconnect (t : Nat)

def schedStep (st : SchedSt) : SchedEv → SchedSt
  | .connect t =>
    let st1 := fireTimer t st
    { st1 with timer := none, active := st1.active + 1 }
  | .disconnect t =>
    let st1 := fireTimer t st
    let st2 := { st1 with active := st1.active - 1 }
    if st2.active = 0 ∧ st2.timer = none then
      { st2 with timer := some (t + SHUTDOWN_IDLE_MS) }
    else st2

/-- Run a time-ordered event list and then let any armed timer fire up to
the time `horizon`. -/
def runSched (evs : List SchedEv) (horizon : Nat) : SchedSt :=
  fireTimer horizon (evs.foldl schedStep schedInit)

/-
`startInstance()` from proxy.js lines 172-191:

    async function startInstance() {
      const now = Date.now();
      if (now - lastStartRequest < START_DEBOUNCE_MS) return;
      lastStartRequest = now;
      ...
      const inst = await describeInstance();
      const state = inst?.State?.Name;
      if (state === 'running' || state === 'pending') {
        pollForIpAndReady(); return;
      }
      starting = true;
      await ec2.send(new StartInstancesCommand(...));
      pollForIpAndReady();
    }

The debounce check and the `lastStartRequest = now` update run in one
synchronous segment, so a model step takes the observed instance state as a
parameter and performs the whole call atomically; `pollsStarted` counts
`pollForIpAndReady()` invocations and `pollsInFlight` those not yet
finished (`pollForIpAndReady` runs up to 6 minutes).  JS compares
`now - lastStartRequest` on real clock values; a negative difference is
below the debounce bound and so is `Nat` truncation to 0 — behaviour
matches.
-/
def START_DEBOUNCE_MS : Nat := 30000

structure LCState where
  lastStartRequest : Nat
  starting : Bool
  startsIssued : Nat
  pollsStarted : Nat
  pollsInFlight : Nat
deriving DecidableEq, Repr

def lcInit : LCState :=
  { lastStartRequest := 0, starting := false, startsIssued := 0,
    pollsStarted := 0, pollsInFlight := 0 }

def startInstanceStep (now : Nat) (instState : List Char) (st : LCState) : LCState :=
  if now - st.lastStartRequest < START_DEBOUNCE_MS then st
  else
    let st1 := { st with lastStartRequest := now }
    if instState = "running".data ∨ instState = "pending".data then
      { st1 with
        pollsStarted := st1.pollsStarted + 1, pollsInFlight := st1.pollsInFlight + 1 }
    else
      { st1 with
        starting := true, startsIssued := st1.startsIssued + 1,
        pollsStarted := st1.pollsStarted + 1, pollsInFlight := st1.pollsInFlight + 1 }

/-- A `pollForIpAndReady` loop terminating (success or 6-minute timeout):
it clears `starting` and leaves the in-flight set. -/
def pollFinish (st : LCState) : LCState :=
  { st with starting := false, pollsInFlight := st.pollsInFlight - 1 }

/-
`startInstanceBackground(port)` from mc-proxy-ec2.js lines 129-169: the
`startInProgress` guard is read and set in the same synchronous segment, so
a concurrent second call observes it and returns; the start command and the
inline poll loop run once per non-skipped call, and `startInProgress` is
cleared in the `finally`.
-/
structure BgState where
  startInProgress : Bool
  startsIssued : Nat
  pollLoopsRun : Nat
deriving DecidableEq, Repr

def bgInit : BgState := { startInProgress := false, startsIssued := 0, pollLoopsRun := 0 }

def startInstanceBackgroundStep (st : BgState) : BgState :=
  if st.startInProgress then st
  else
    { startInProgress := true, startsIssued := st.startsIssued + 1,
      pollLoopsRun := st.pollLoopsRun + 1 }

/-- Completion of a `startInstanceBackground` call (the `finally` clause). -/
def startInstanceBackgroundFinish (st : BgState) : BgState :=
  { st with startInProgress := false }

/-- Proof-side restatement of the `readVarInt` loop: it reads the remaining
byte list (the buffer from the current position on) structurally.  The
bridge `readVarIntAux_eq_rvAux2` proves it equal to the fuelled embedding. -/
def rvAux2 : List Nat → Nat → Nat → Except Unit (Option (Int × Nat))
  | [], _, _ => Except.ok none
  | read :: rest, numRead, result =>
    if numRead + 1 > 5 then Except.error ()
    else if read &&& 128 ≠ 0 then
      rvAux2 rest (numRead + 1)
        (result ||| (((read &&& 127) <<< ((7 * numRead) % 32)) % 4294967296))
    else
      Except.ok
        (some (toInt32 (result ||| (((read &&& 127) <<< ((7 * numRead) % 32)) % 4294967296)),
          numRead + 1))

/-- The accumulator loop of `readVarInt`, lifted out: `orAccum bytes n r`
is the value of `result` after OR-ing in the payloads of `bytes` starting
at byte index `n` with initial accumulator `r`. -/
def orAccum : List Nat → Nat → Nat → Nat
  | [], _, r => r
  | x :: xs, n, r =>
    orAccum xs (n + 1) (r ||| (((x &&& 127) <<< ((7 * n) % 32)) % 4294967296))

/-- Little-endian base-128 value of a varint's payload bytes: 7 payload bits
per byte, first byte least significant. -/
def varintPayload : List Nat → Nat
  | [] => 0
  | x :: xs => (x % 128) + 128 * varintPayload xs

/-- Byte form of the demo handshake host `mc.example.com`. -/
def mcHostBytes : List Nat := ("mc.example.com".data).map Char.toNat

/-- A complete handshake packet: length 21, packet id 0, protocol version
763 (varint `FB 05`), host length 14, host `mc.example.com`, port 25565
(`63 DD`), next-state 2.  The buffer is exactly one packet. -/
def hsDemo : List Nat := [21, 0, 251, 5, 14] ++ mcHostBytes ++ [99, 221, 2]

def localRouteDemo : RouteV :=
  { type := "local".data, host := some ("192.168.0.5".data), port := some 25570 }

def localRoutesDemo : List (List Char × RouteV) := [("mc.example.com".data, localRouteDemo)]

def ec2RoutesDemo : List (List Char × RouteV) :=
  [("mc.example.com".data, { type := "ec2".data, host := none, port := none })]

/-- Spec-side reading of "drop a trailing `:<digits>` suffix": take the
maximal run of digits at the end of the string; if it is nonempty and
preceded by a colon, remove the run and the colon. -/
def specDropPort (l : List Char) : List Char :=
  if (l.reverse.takeWhile Char.isDigit) ≠ [] ∧
      (l.reverse.drop (l.reverse.takeWhile Char.isDigit).length).head? = some ':' then
    (l.reverse.drop ((l.reverse.takeWhile Char.isDigit).length + 1)).reverse
  else l

/-- The claim's reading of a wildcard rule: the pattern is literally
`"*." ++ x` and the host ends with `"." ++ x`. -/
def SpecWildcard (pattern host : List Char) : Prop :=
  ∃ x, pattern = '*' :: '.' :: x ∧ ('.' :: x) <:+ host

/-- The claim's reading of a bare rule: no `*` in the pattern, at least two
labels (one dot or more), and the host equals the pattern or ends with
`"." ++ pattern`. -/
def SpecBare (pattern host : List Char) : Prop :=
  '*' ∉ pattern ∧ 1 ≤ pattern.count '.' ∧
    (host = pattern ∨ ('.' :: pattern) <:+ host)

def xRouteL1 : RouteV := { type := "local".data, host := some ("h1".data), port := some 1 }

def xRouteL2 : RouteV := { type := "local".data, host := some ("h2".data), port := some 2 }

def xRouteL3 : RouteV := { type := "local".data, host := some ("h3".data), port := some 3 }

/-- The route table of the claim's example:
`{"a.x.com": L1, "*.x.com": L2, "x.com": L3}`. -/
def xTableDemo : List (List Char × RouteV) :=
  [("a.x.com".data, xRouteL1), ("*.x.com".data, xRouteL2), ("x.com".data, xRouteL3)]

/-- Raw bytes of a handshake host needing every normalization step that its
route key lacks: mixed case, a leading `www.` label, a trailing dot. -/
def rawHostDemoBytes : List Nat := ("www.MC.Example.COM.".data).map Char.toNat

/-- A complete handshake packet for the host above (length 26, host length
19); it normalizes to `mc.example.com` but its bytes stay as sent. -/
def hsRawDemo : List Nat := [26, 0, 251, 5, 19] ++ rawHostDemoBytes ++ [99, 221, 2]

/-- C3: a consume refills by `floor(elapsed/T)*R` tokens capped at `MAX`,
advances the last-refill timestamp by exactly `floor(elapsed/T)*T` (carrying
the remainder), then succeeds and decrements by one iff the refilled count
is at least 1; with `S=1, MAX=3, R=1, T=15s` a bucket idle 45 s holds
exactly 3 tokens (not 4) and a consume at 0 tokens fails leaving 0. -/
theorem c3_token_bucket :
    (∀ now b, b.tokens ≤ MAX_TOKENS →
      refillBucket now b =
        { tokens := min MAX_TOKENS
            (b.tokens + ((now - b.lastRefill) / TOKEN_REFILL_INTERVAL_MS) * TOKENS_PER_REFILL),
          lastRefill := b.lastRefill +
            ((now - b.lastRefill) / TOKEN_REFILL_INTERVAL_MS) * TOKEN_REFILL_INTERVAL_MS }) ∧
    (∀ now ob,
      ((consumeToken now ob).1 = true ↔ 1 ≤ (refillBucket now (ensureBucket now ob)).tokens) ∧
      (consumeToken now ob).2.tokens =
        (if 1 ≤ (refillBucket now (ensureBucket now ob)).tokens
         then (refillBucket now (ensureBucket now ob)).tokens - 1
         else (refillBucket now (ensureBucket now ob)).tokens) ∧
      (consumeToken now ob).2.lastRefill = (refillBucket now (ensureBucket now ob)).lastRefill) ∧
    refillBucket 45000 { tokens := 1, lastRefill := 0 } = { tokens := 3, lastRefill := 45000 } ∧
    consumeToken 0 (some { tokens := 0, lastRefill := 0 }) =
      (false, { tokens := 0, lastRefill := 0 }) := by
  refine ⟨?_, ?_, by decide, by decide⟩
  · intro now b h
    cases b with
    | mk tk lr =>
      dsimp only at h ⊢
      simp only [refillBucket]
      split
      next hs => rfl
      next hs =>
        have h0 : (now - lr) / TOKEN_REFILL_INTERVAL_MS = 0 := Nat.eq_zero_of_not_pos hs
        simp only [h0, Nat.zero_mul, Nat.add_zero]
        simp [Nat.min_eq_right h]
  · intro now ob
    simp only [consumeToken]
    by_cases h1 : 1 ≤ (refillBucket now (ensureBucket now ob)).tokens
    · simp [ge_iff_le, h1]
    · simp [ge_iff_le, h1]

/-- C3 witness: the theorem instantiated at a bucket holding 2 tokens that
was last refilled 100 s ago, and at a fresh consume. -/
theorem c3_token_bucket_witness :
    refillBucket 100000 { tokens := 2, lastRefill := 0 } =
      { tokens := min MAX_TOKENS
          (2 + ((100000 - 0) / TOKEN_REFILL_INTERVAL_MS) * TOKENS_PER_REFILL),
        lastRefill := 0 + ((100000 - 0) / TOKEN_REFILL_INTERVAL_MS) * TOKEN_REFILL_INTERVAL_MS } ∧
    ((consumeToken 7 none).1 = true ↔ 1 ≤ (refillBucket 7 (ensureBucket 7 none)).tokens) :=
  ⟨c3_token_bucket.1 100000 { tokens := 2, lastRefill := 0 } (by decide),
   (c3_token_bucket.2.1 7 none).1⟩

/-- C4: a failure within `W` of the window start increments the counter, one
after `W` restarts the window at count 1; reaching `F` bans for `D` and
resets the record; an expired ban is reported not-banned and removed. With
`F=5, W=10min, D=30min`: five failures inside 10 minutes ban until
`t5 + 30min`, a lookup 31 minutes later is not banned, and 4 failures plus
an 11-minute gap plus one more leave the counter at 1 with no ban. -/
theorem c4_fail_ban :
    (∀ now st ban, now - st.firstFailTs ≤ FAIL_WINDOW_MS → st.count + 1 < FAIL_MAX →
      recordFail now (some st) ban =
        (some { count := st.count + 1, firstFailTs := st.firstFailTs }, ban)) ∧
    (∀ now st ban, now - st.firstFailTs > FAIL_WINDOW_MS →
      recordFail now (some st) ban = (some { count := 1, firstFailTs := now }, ban)) ∧
    (∀ now st ban, now - st.firstFailTs ≤ FAIL_WINDOW_MS → st.count + 1 ≥ FAIL_MAX →
      recordFail now (some st) ban = (none, some (now + BAN_DURATION_MS))) ∧
    (∀ now ts, now > ts → isBanned now (some ts) = (false, none)) ∧
    runFailTrace [0, 60000, 120000, 180000, 240000] = (none, some 2040000) ∧
    isBanned 2100000 (some 2040000) = (false, none) ∧
    runFailTrace [0, 60000, 120000, 180000, 840000] =
      (some { count := 1, firstFailTs := 840000 }, none) := by
  refine ⟨?_, ?_, ?_, ?_, by decide, by decide, by decide⟩
  · intro now st ban hw hc
    obtain ⟨c, f⟩ := st
    dsimp only at hw hc ⊢
    have h1 : ¬ (now - f > FAIL_WINDOW_MS) := by omega
    simp only [recordFail, Option.getD_some, if_neg h1]
    rw [if_neg (by omega)]
  · intro now st ban hw
    obtain ⟨c, f⟩ := st
    dsimp only at hw
    simp only [recordFail, Option.getD_some, if_pos hw]
    rw [if_neg (by decide)]
  · intro now st ban hw hc
    obtain ⟨c, f⟩ := st
    dsimp only at hw hc
    have h1 : ¬ (now - f > FAIL_WINDOW_MS) := by omega
    simp only [recordFail, Option.getD_some, if_neg h1]
    rw [if_pos (by omega)]
  · intro now ts h
    simp only [isBanned]
    rw [if_pos h]

/-- C4 witness: the theorem instantiated at concrete records exercising the
increment, the window restart, the ban threshold, and ban expiry. -/
theorem c4_fail_ban_witness :
    recordFail 1000 (some { count := 1, firstFailTs := 0 }) none =
      (some { count := 2, firstFailTs := 0 }, none) ∧
    recordFail 700000 (some { count := 4, firstFailTs := 0 }) none =
      (some { count := 1, firstFailTs := 700000 }, none) ∧
    recordFail 9000 (some { count := 4, firstFailTs := 0 }) none =
      (none, some (9000 + BAN_DURATION_MS)) ∧
    isBanned 31 (some 30) = (false, none) :=
  ⟨c4_fail_ban.1 1000 { count := 1, firstFailTs := 0 } none (by decide) (by decide),
   c4_fail_ban.2.1 700000 { count := 4, firstFailTs := 0 } none (by decide),
   c4_fail_ban.2.2.1 9000 { count := 4, firstFailTs := 0 } none (by decide) (by decide),
   c4_fail_ban.2.2.2.1 31 30 (by decide)⟩

/-- C6: a session arrival always disarms a pending idle timer, a transition
from one active session to zero arms a timer for `M` later, the expiry
callback re-checks the session count and stops only when it is still zero;
a full idle period of `M = 10` minutes yields exactly one stop, while a
session arriving at minute 9 cancels the pending stop. -/
theorem c6_idle_scheduler :
    (∀ st t, (schedStep st (SchedEv.connect t)).timer = none) ∧
    (∀ st t, st.timer = none → st.active = 1 →
      schedStep st (SchedEv.disconnect t) =
        { active := 0, timer := some (t + SHUTDOWN_IDLE_MS), stops := st.stops }) ∧
    (∀ st t d, st.timer = some d → d ≤ t → st.active ≠ 0 →
      fireTimer t st = { st with timer := none }) ∧
    (∀ st t d, st.timer = some d → d ≤ t → st.active = 0 →
      fireTimer t st = { st with timer := none, stops := st.stops + 1 }) ∧
    runSched [SchedEv.connect 0, SchedEv.disconnect 0] 600000 =
      { active := 0, timer := none, stops := 1 } ∧
    runSched [SchedEv.connect 0, SchedEv.disconnect 0, SchedEv.connect 540000] 600000 =
      { active := 1, timer := none, stops := 0 } := by
  refine ⟨?_, ?_, ?_, ?_, by decide, by decide⟩
  · intro st t
    simp [schedStep]
  · intro st t h1 h2
    cases st with
    | mk a tm s =>
      simp only at h1 h2
      subst h1; subst h2
      simp [schedStep, fireTimer]
  · intro st t d h1 h2 h3
    cases st with
    | mk a tm s =>
      simp only at h1 h3
      subst h1
      simp [fireTimer, h2, h3]
  · intro st t d h1 h2 h3
    cases st with
    | mk a tm s =>
      simp only at h1 h3
      subst h1; subst h3
      simp [fireTimer, h2]

/-- C6 witness: the theorem instantiated at concrete scheduler states. -/
theorem c6_idle_scheduler_witness :
    schedStep { active := 1, timer := none, stops := 0 } (SchedEv.disconnect 5) =
      { active := 0, timer := some (5 + SHUTDOWN_IDLE_MS), stops := 0 } ∧
    fireTimer 20 { active := 2, timer := some 10, stops := 0 } =
      { active := 2, timer := none, stops := 0 } ∧
    fireTimer 20 { active := 0, timer := some 10, stops := 0 } =
      { active := 0, timer := none, stops := 1 } :=
  ⟨c6_idle_scheduler.2.1 { active := 1, timer := none, stops := 0 } 5 rfl rfl,
   c6_idle_scheduler.2.2.1 { active := 2, timer := some 10, stops := 0 } 20 10 rfl
     (by decide) (by decide),
   c6_idle_scheduler.2.2.2.1 { active := 0, timer := some 10, stops := 0 } 20 10 rfl
     (by decide) rfl⟩

/-- C5 counterexample: in proxy.js, `startInstance` only debounces on
`lastStartRequest`; a call arriving 30 s after a start, while the first
`pollForIpAndReady` loop is still in flight, passes the debounce and — the
instance now reporting `pending` — invokes `pollForIpAndReady()` again,
starting a second concurrent poll loop.  Concretely: a start at t=100000
with the instance stopped, then a call at t=130000 with the instance
pending, leaves one start command but two poll loops, the first still in
flight. -/
theorem c5_counterexample :
    (startInstanceStep 100000 ("stopped".data) lcInit).pollsInFlight = 1 ∧
    (startInstanceStep 100000 ("stopped".data) lcInit).startsIssued = 1 ∧
    (startInstanceStep 130000 ("pending".data)
        (startInstanceStep 100000 ("stopped".data) lcInit)).pollsStarted = 2 ∧
    (startInstanceStep 130000 ("pending".data)
        (startInstanceStep 100000 ("stopped".data) lcInit)).pollsInFlight = 2 ∧
    (startInstanceStep 130000 ("pending".data)
        (startInstanceStep 100000 ("stopped".data) lcInit)).startsIssued = 1 := by
  decide

lemma startInstanceStep_noop (now : Nat) (inst : List Char) (st : LCState)
    (h : now - st.lastStartRequest < START_DEBOUNCE_MS) :
    startInstanceStep now inst st = st := by
  simp only [startInstanceStep, if_pos h]

lemma startInstanceStep_lastStartRequest (now : Nat) (inst : List Char) (st : LCState)
    (h : ¬ (now - st.lastStartRequest < START_DEBOUNCE_MS)) :
    (startInstanceStep now inst st).lastStartRequest = now := by
  simp only [startInstanceStep, if_neg h]
  split <;> rfl

/-- C5 (amended): a `startInstance` call within the 30 s debounce window of
the last start request is a no-op, and two concurrent calls (same `now`)
with no sequence in flight coalesce — the second is a no-op, and exactly
one start command and one poll sequence are issued when the instance is not
already pending/running; `startInstanceBackground` calls while a start is
in progress are no-ops (no duplicate start command, no second poll loop),
and two concurrent calls produce exactly one start and one poll.  However —
per the counterexample — a `startInstance` call arriving after the debounce
window while the first poll loop is still in flight does start a second
poll loop, so "no second poll loop while a sequence is in flight" holds
only within the debounce window (or for `startInstanceBackground`). -/
theorem c5_amended :
    (∀ now inst st, now - st.lastStartRequest < START_DEBOUNCE_MS →
      startInstanceStep now inst st = st) ∧
    (∀ now inst inst2 st, ¬ (now - st.lastStartRequest < START_DEBOUNCE_MS) →
      startInstanceStep now inst2 (startInstanceStep now inst st) =
        startInstanceStep now inst st) ∧
    (∀ now inst st, ¬ (now - st.lastStartRequest < START_DEBOUNCE_MS) →
      inst ≠ "running".data → inst ≠ "pending".data →
      (startInstanceStep now inst st).startsIssued = st.startsIssued + 1 ∧
      (startInstanceStep now inst st).pollsStarted = st.pollsStarted + 1) ∧
    (∀ st, st.startInProgress = true → startInstanceBackgroundStep st = st) ∧
    (∀ st, st.startInProgress = false →
      startInstanceBackgroundStep (startInstanceBackgroundStep st) =
        startInstanceBackgroundStep st ∧
      (startInstanceBackgroundStep st).startsIssued = st.startsIssued + 1 ∧
      (startInstanceBackgroundStep st).pollLoopsRun = st.pollLoopsRun + 1) := by
  refine ⟨?_, ?_, ?_, ?_, ?_⟩
  · intro now inst st hd
    exact startInstanceStep_noop now inst st hd
  · intro now inst inst2 st hd
    apply startInstanceStep_noop
    rw [startInstanceStep_lastStartRequest now inst st hd, Nat.sub_self]
    decide
  · intro now inst st hd h1 h2
    have hor : ¬ (inst = "running".data ∨ inst = "pending".data) := by
      intro hc
      cases hc with
      | inl h => exact h1 h
      | inr h => exact h2 h
    simp only [startInstanceStep, if_neg hd, if_neg hor]
    exact ⟨by trivial, by trivial⟩
  · intro st h
    simp only [startInstanceBackgroundStep, h, if_true]
  · intro st h
    refine ⟨?_, ?_, ?_⟩
    · simp only [startInstanceBackgroundStep, h, Bool.false_eq_true, if_false, if_true]
    · simp only [startInstanceBackgroundStep, h, Bool.false_eq_true, if_false]
    · simp only [startInstanceBackgroundStep, h, Bool.false_eq_true, if_false]

/-- C5 witness: the amended theorem instantiated — a debounced call is a
no-op, a same-instant second call is a no-op, and the backgrounded variant
skips while in progress. -/
theorem c5_amended_witness :
    startInstanceStep 100020 ("stopped".data)
        { lastStartRequest := 100000, starting := true, startsIssued := 1,
          pollsStarted := 1, pollsInFlight := 1 } =
      { lastStartRequest := 100000, starting := true, startsIssued := 1,
        pollsStarted := 1, pollsInFlight := 1 } ∧
    startInstanceStep 50000 ("stopped".data) (startInstanceStep 50000 ("stopped".data) lcInit) =
      startInstanceStep 50000 ("stopped".data) lcInit ∧
    (startInstanceStep 50000 ("stopped".data) lcInit).startsIssued = lcInit.startsIssued + 1 ∧
    startInstanceBackgroundStep { startInProgress := true, startsIssued := 1, pollLoopsRun := 1 } =
      { startInProgress := true, startsIssued := 1, pollLoopsRun := 1 } :=
  ⟨c5_amended.1 100020 ("stopped".data) _ (by decide),
   c5_amended.2.1 50000 ("stopped".data) ("stopped".data) lcInit (by decide),
   (c5_amended.2.2.1 50000 ("stopped".data) lcInit (by decide) (by decide) (by decide)).1,
   c5_amended.2.2.2.1 { startInProgress := true, startsIssued := 1, pollLoopsRun := 1 } rfl⟩

lemma readVarIntAux_eq_rvAux2 (buf : List Nat) (off : Nat) :
    ∀ fuel numRead r, fuel + numRead = 6 → numRead ≤ 5 →
      readVarIntAux buf off fuel numRead r = rvAux2 (buf.drop (off + numRead)) numRead r := by
  intro fuel
  induction fuel with
  | zero => intro n r h hn; exact absurd h (by omega)
  | succ fuel ih =>
    intro n r h hn
    cases hdrop : buf.drop (off + n) with
    | nil =>
      have hlen : buf.length ≤ off + n := List.drop_eq_nil_iff.mp hdrop
      simp only [readVarIntAux, rvAux2, if_pos hlen]
    | cons x xs =>
      have hlen : ¬ (buf.length ≤ off + n) := by
        rw [← List.drop_eq_nil_iff]
        simp [hdrop]
      have hx : buf.getD (off + n) 0 = x := by
        rw [List.getD_eq_getElem?_getD, ← List.head?_drop, hdrop]
        rfl
      have hxs : buf.drop (off + n + 1) = xs := by
        rw [← List.tail_drop, hdrop]
        rfl
      simp only [readVarIntAux, rvAux2, if_neg hlen, hx]
      by_cases h5 : n + 1 > 5
      · rw [if_pos h5, if_pos h5]
      · rw [if_neg h5, if_neg h5]
        by_cases hcont : x &&& 128 ≠ 0
        · rw [if_pos hcont, if_pos hcont]
          rw [ih (n + 1) _ (by omega) (by omega)]
          rw [show off + n + 1 = off + (n + 1) by omega] at hxs
          rw [hxs]
        · rw [if_neg hcont, if_neg hcont]

lemma readVarInt_eq_rvAux2 (buf : List Nat) (off : Nat) :
    readVarInt buf off = rvAux2 (buf.drop off) 0 0 := by
  have h := readVarIntAux_eq_rvAux2 buf off 6 0 0 rfl (by omega)
  simpa using h

lemma rvAux2_extend (ext : List Nat) :
    ∀ (rem : List Nat) (n r : Nat) (v : Int × Nat),
      rvAux2 rem n r = Except.ok (some v) → rvAux2 (rem ++ ext) n r = Except.ok (some v) := by
  intro rem
  induction rem with
  | nil =>
    intro n r v h
    exact absurd h (by simp [rvAux2])
  | cons x xs ih =>
    intro n r v h
    simp only [rvAux2, List.cons_append] at h ⊢
    by_cases h5 : n + 1 > 5
    · rw [if_pos h5] at h
      exact absurd h (by simp)
    · rw [if_neg h5] at h ⊢
      by_cases hcont : x &&& 128 ≠ 0
      · rw [if_pos hcont] at h ⊢
        exact ih _ _ _ h
      · rw [if_neg hcont] at h ⊢
        exact h

lemma rvAux2_error_extend (ext : List Nat) :
    ∀ (rem : List Nat) (n r : Nat),
      rvAux2 rem n r = Except.error () → rvAux2 (rem ++ ext) n r = Except.error () := by
  intro rem
  induction rem with
  | nil =>
    intro n r h
    exact absurd h (by simp [rvAux2])
  | cons x xs ih =>
    intro n r h
    simp only [rvAux2, List.cons_append] at h ⊢
    by_cases h5 : n + 1 > 5
    · rw [if_pos h5]
    · rw [if_neg h5] at h ⊢
      by_cases hcont : x &&& 128 ≠ 0
      · rw [if_pos hcont] at h ⊢
        exact ih _ _ h
      · rw [if_neg hcont] at h
        exact absurd h (by simp)

lemma readVarInt_extend (p ext : List Nat) (off : Nat) (v : Int × Nat)
    (h : readVarInt p off = Except.ok (some v)) :
    readVarInt (p ++ ext) off = Except.ok (some v) := by
  rw [readVarInt_eq_rvAux2] at h ⊢
  have hoff : off ≤ p.length := by
    by_contra hc
    rw [List.drop_eq_nil_iff.mpr (by omega)] at h
    exact absurd h (by simp [rvAux2])
  rw [List.drop_append_of_le_length hoff]
  exact rvAux2_extend ext _ _ _ _ h

lemma readVarInt_error_extend (p ext : List Nat) (off : Nat)
    (h : readVarInt p off = Except.error ()) :
    readVarInt (p ++ ext) off = Except.error () := by
  rw [readVarInt_eq_rvAux2] at h ⊢
  have hoff : off ≤ p.length := by
    by_contra hc
    rw [List.drop_eq_nil_iff.mpr (by omega)] at h
    exact absurd h (by simp [rvAux2])
  rw [List.drop_append_of_le_length hoff]
  exact rvAux2_error_extend ext _ _ _ h

/-- A strict prefix of a buffer holding exactly one complete handshake packet
always parses to "need more data" (never to an error or a packet). -/
lemma parseHandshake_prefix_more (bs p : List Nat)
    (he : packetExact bs = true)
    (hp : p <+: bs) (hne : p ≠ bs) : parseHandshake p = ParseOut.more := by
  obtain ⟨t, ht⟩ := hp
  cases h0 : readVarInt bs 0 with
  | error e =>
    rw [packetExact, h0] at he
    exact absurd he (by simp)
  | ok o =>
    cases o with
    | none =>
      rw [packetExact, h0] at he
      exact absurd he (by simp)
    | some pr =>
      obtain ⟨pl, ls⟩ := pr
      have hexact : (ls : Int) + pl = (bs.length : Int) := by
        rw [packetExact, h0] at he
        exact_mod_cast of_decide_eq_true he
      have hlt : p.length < bs.length := by
        have hle : p.length ≤ bs.length := by
          rw [← ht]
          simp
        rcases Nat.lt_or_ge p.length bs.length with h | h
        · exact h
        · exact absurd (List.IsPrefix.eq_of_length ⟨t, ht⟩ (by omega)) hne
      cases hq : readVarInt p 0 with
      | error e =>
        cases e
        have hext := readVarInt_error_extend p t 0 hq
        rw [ht, h0] at hext
        exact absurd hext (by simp)
      | ok o2 =>
        cases o2 with
        | none =>
          simp only [parseHandshake, hq]
        | some pr2 =>
          have hext := readVarInt_extend p t 0 pr2 hq
          rw [ht, h0] at hext
          have hpr2 : pr2 = (pl, ls) := by
            injection hext with hx
            injection hx with hy
            exact hy.symm
          subst hpr2
          have hcond : (p.length : Int) < (ls : Int) + pl := by
            rw [hexact]
            exact_mod_cast hlt
          simp only [parseHandshake, hq, if_pos hcond]

lemma stepM_data_more (routes : List (List Char × RouteV)) (st : MState) (c : List Nat)
    (hr : st.routed = false) (hm : parseHandshake (st.buffer ++ c) = ParseOut.more) :
    stepM routes st (Ev.data c) = { st with buffer := st.buffer ++ c } := by
  simp [stepM, hr, hm]

lemma stepM_data_congr (routes : List (List Char × RouteV)) (b1 b2 c1 c2 : List Nat)
    (p : Nat) (a : List Act) (hb : b1 ++ c1 = b2 ++ c2) :
    stepM routes { buffer := b1, routed := false, pending := p, acts := a } (Ev.data c1) =
      stepM routes { buffer := b2, routed := false, pending := p, acts := a } (Ev.data c2) := by
  simp only [stepM, Bool.false_eq_true, if_false]
  rw [hb]

/-- Every strict initial segment of a fragment list whose flattening is one
exact handshake packet still parses as "need more data". -/
lemma flatten_take_more (frags : List (List Nat)) (bs : List Nat)
    (hjoin : frags.flatten = bs) (hne : ∀ f ∈ frags, f ≠ [])
    (he : packetExact bs = true) :
    ∀ k, k < frags.length → parseHandshake ((frags.take k).flatten) = ParseOut.more := by
  intro k hk
  apply parseHandshake_prefix_more bs _ he
  · refine ⟨(frags.drop k).flatten, ?_⟩
    rw [← List.flatten_append, List.take_append_drop, hjoin]
  · intro heq
    have hsplit : (frags.take k).flatten ++ (frags.drop k).flatten = bs := by
      rw [← List.flatten_append, List.take_append_drop, hjoin]
    rw [heq] at hsplit
    have hdrop : (frags.drop k).flatten = [] := by
      have hlen := congrArg List.length hsplit
      simp only [List.length_append] at hlen
      have h0 : (frags.drop k).flatten.length = 0 := by omega
      exact List.eq_nil_of_length_eq_zero h0
    cases hd : frags.drop k with
    | nil =>
      have : frags.length ≤ k := List.drop_eq_nil_iff.mp hd
      omega
    | cons f rest =>
      have hfmem : f ∈ frags := by
        have : f ∈ frags.drop k := by
          rw [hd]
          exact List.mem_cons_self f rest
        exact List.mem_of_mem_drop this
      have hfne := hne f hfmem
      rw [hd] at hdrop
      simp at hdrop
      exact hfne hdrop.1

lemma foldl_data_accum (routes : List (List Char × RouteV)) :
    ∀ (fs : List (List Nat)) (b0 : List Nat),
      (∀ k, k ≤ fs.length → parseHandshake (b0 ++ (fs.take k).flatten) = ParseOut.more) →
      List.foldl (stepM routes)
          { buffer := b0, routed := false, pending := 0, acts := [] } (fs.map Ev.data) =
        { buffer := b0 ++ fs.flatten, routed := false, pending := 0, acts := [] } := by
  intro fs
  induction fs with
  | nil =>
    intro b0 h
    simp
  | cons f fs ih =>
    intro b0 h
    simp only [List.map_cons, List.foldl_cons]
    have h1 : parseHandshake (b0 ++ f) = ParseOut.more := by
      have := h 1 (by simp)
      simpa using this
    rw [stepM_data_more routes _ f rfl h1]
    have h2 : ∀ k, k ≤ fs.length →
        parseHandshake ((b0 ++ f) ++ (fs.take k).flatten) = ParseOut.more := by
      intro k hk
      have := h (k + 1) (by simp; omega)
      simpa [List.append_assoc] using this
    have := ih (b0 ++ f) h2
    simp only at this
    rw [this]
    simp [List.append_assoc]

/-- Feeding a valid handshake split into nonempty fragments drives the
connection machine to exactly the state reached by feeding it unsplit. -/
lemma runM_frags (routes : List (List Char × RouteV)) (frags : List (List Nat))
    (bs rawHost : List Nat) (hjoin : frags.flatten = bs)
    (hne : ∀ f ∈ frags, f ≠ [])
    (hv : parseHandshake bs = ParseOut.done rawHost) (he : packetExact bs = true) :
    runM routes (frags.map Ev.data) = runM routes [Ev.data bs] := by
  have hbs : bs ≠ [] := by
    intro h
    rw [h] at hv
    have hmore : parseHandshake ([] : List Nat) = ParseOut.more := rfl
    rw [hmore] at hv
    exact ParseOut.noConfusion hv
  rcases List.eq_nil_or_concat frags with hnil | ⟨fs, l, hcat⟩
  · rw [hnil] at hjoin
    simp at hjoin
    exact absurd hjoin hbs
  · subst hcat
    have hl : l ≠ [] := hne l (by simp [List.concat_eq_append])
    have hflat : fs.flatten ++ l = bs := by
      rw [← hjoin, List.concat_eq_append, List.flatten_append]
      simp
    have hpre : ∀ k, k ≤ fs.length → parseHandshake (([] : List Nat) ++ (fs.take k).flatten) = ParseOut.more := by
      intro k hk
      have hk2 : k < (fs.concat l).length := by
        simp [List.concat_eq_append]
        omega
      have := flatten_take_more (fs.concat l) bs (by rw [← hjoin]) hne he k hk2
      rw [List.concat_eq_append, List.take_append_of_le_length hk] at this
      simpa using this
    unfold runM
    rw [List.concat_eq_append, List.map_append, List.foldl_append]
    have hacc := foldl_data_accum routes fs [] hpre
    have hinit : mInit = { buffer := ([] : List Nat), routed := false, pending := 0, acts := ([] : List Act) } := rfl
    rw [hinit, hacc]
    simp only [List.map_cons, List.map_nil, List.foldl_cons, List.foldl_nil]
    exact stepM_data_congr routes ([] ++ fs.flatten) [] l bs 0 [] (by simpa using hflat)

/-- Bitwise OR coincides with addition when the low operand fits below the
bit position of the high one. -/
lemma lor_two_pow_mul (a c k : Nat) (h : a < 2 ^ k) :
    a ||| (2 ^ k * c) = a + 2 ^ k * c := by
  apply Nat.eq_of_testBit_eq
  intro i
  rw [Nat.testBit_lor]
  rcases Nat.lt_or_ge i k with hik | hik
  · have h2 : (2 ^ k * c).testBit i = false := by
      rw [Nat.mul_comm, ← Nat.shiftLeft_eq, Nat.testBit_shiftLeft]
      simp [Nat.not_le.mpr hik]
    rw [h2, Bool.or_false]
    have hdiv : (a + 2 ^ k * c) / 2 ^ i = a / 2 ^ i + 2 ^ (k - i) * c := by
      have hsplit : 2 ^ k * c = 2 ^ i * (2 ^ (k - i) * c) := by
        rw [← Nat.mul_assoc, ← Nat.pow_add]
        congr 2
        omega
      rw [hsplit, Nat.add_mul_div_left _ _ (Nat.pos_pow_of_pos i (by norm_num))]
    have hmod : (a + 2 ^ k * c) / 2 ^ i % 2 = a / 2 ^ i % 2 := by
      rw [hdiv]
      have hsplit2 : 2 ^ (k - i) * c = 2 * (2 ^ (k - i - 1) * c) := by
        rw [← Nat.mul_assoc]
        congr 1
        rw [← Nat.pow_succ']
        congr 1
        omega
      rw [hsplit2, Nat.add_mul_mod_self_left]
    rw [Nat.testBit_to_div_mod, Nat.testBit_to_div_mod, hmod]
  · have ha : a.testBit i = false :=
      Nat.testBit_lt_two_pow (lt_of_lt_of_le h (Nat.pow_le_pow_right (by norm_num) hik))
    rw [ha, Bool.false_or]
    have h2 : (2 ^ k * c).testBit i = c.testBit (i - k) := by
      rw [Nat.mul_comm, ← Nat.shiftLeft_eq, Nat.testBit_shiftLeft]
      simp [hik]
    have hexp : 2 ^ k * 2 ^ (i - k) = 2 ^ i := by
      rw [← Nat.pow_add]
      congr 1
      omega
    have hdiv : (a + 2 ^ k * c) / 2 ^ i = c / 2 ^ (i - k) := by
      have hq := Nat.div_add_mod c (2 ^ (i - k))
      have hr : c % 2 ^ (i - k) < 2 ^ (i - k) :=
        Nat.mod_lt _ (Nat.pos_pow_of_pos _ (by norm_num))
      have h1 : a + 2 ^ k * c =
          (2 ^ k * (c % 2 ^ (i - k)) + a) + 2 ^ i * (c / 2 ^ (i - k)) := by
        calc a + 2 ^ k * c
            = a + 2 ^ k * (2 ^ (i - k) * (c / 2 ^ (i - k)) + c % 2 ^ (i - k)) := by rw [hq]
          _ = (2 ^ k * (c % 2 ^ (i - k)) + a) + (2 ^ k * 2 ^ (i - k)) * (c / 2 ^ (i - k)) := by
              ring
          _ = (2 ^ k * (c % 2 ^ (i - k)) + a) + 2 ^ i * (c / 2 ^ (i - k)) := by rw [hexp]
      rw [h1, Nat.add_mul_div_left _ _ (Nat.pos_pow_of_pos i (by norm_num))]
      have hsmall : (2 ^ k * (c % 2 ^ (i - k)) + a) / 2 ^ i = 0 := by
        apply Nat.div_eq_of_lt
        have hms : 2 ^ k * (c % 2 ^ (i - k) + 1) = 2 ^ k * (c % 2 ^ (i - k)) + 2 ^ k := by
          rw [Nat.mul_add, Nat.mul_one]
        have h3 : 2 ^ k * (c % 2 ^ (i - k)) + a < 2 ^ k * (c % 2 ^ (i - k) + 1) := by
          omega
        have h4 : 2 ^ k * (c % 2 ^ (i - k) + 1) ≤ 2 ^ k * 2 ^ (i - k) :=
          Nat.mul_le_mul_left _ (by omega)
        rw [hexp] at h4
        omega
      omega
    rw [h2, Nat.testBit_to_div_mod, Nat.testBit_to_div_mod, hdiv]

lemma orAccum_eq (bytes : List Nat) :
    ∀ n r, n + bytes.length ≤ 5 → r < 2 ^ (7 * n) → r < 4294967296 →
      orAccum bytes n r = (r + 2 ^ (7 * n) * varintPayload bytes) % 4294967296 := by
  induction bytes with
  | nil =>
    intro n r h1 h2 h3
    simp [orAccum, varintPayload, Nat.mod_eq_of_lt h3]
  | cons x xs ih =>
    intro n r h1 h2 h3
    have hn4 : n ≤ 4 := by
      simp only [List.length_cons] at h1
      omega
    have hshift : (7 * n) % 32 = 7 * n := Nat.mod_eq_of_lt (by omega)
    have hand : x &&& 127 = x % 128 := by
      have h := Nat.and_pow_two_sub_one_eq_mod x 7
      norm_num at h
      exact h
    have h32 : 7 * n + (32 - 7 * n) = 32 := by omega
    have hsplit : (4294967296 : Nat) = 2 ^ (7 * n) * 2 ^ (32 - 7 * n) := by
      rw [← Nat.pow_add, h32]
    have ht : ((x &&& 127) <<< ((7 * n) % 32)) % 4294967296 =
        2 ^ (7 * n) * (x % 128 % 2 ^ (32 - 7 * n)) := by
      rw [hshift, hand, Nat.shiftLeft_eq]
      conv_lhs => rw [hsplit]
      rw [Nat.mul_comm (x % 128) (2 ^ (7 * n)), Nat.mul_mod_mul_left]
    have hp128 : x % 128 < 128 := Nat.mod_lt _ (by norm_num)
    have hlor : r ||| (((x &&& 127) <<< ((7 * n) % 32)) % 4294967296) =
        r + 2 ^ (7 * n) * (x % 128 % 2 ^ (32 - 7 * n)) := by
      rw [ht]
      exact lor_two_pow_mul r _ (7 * n) h2
    have hpow : 2 ^ (7 * (n + 1)) = 2 ^ (7 * n) * 128 := by
      rw [show 7 * (n + 1) = 7 * n + 7 by ring, Nat.pow_add]
    have hr1 : r + 2 ^ (7 * n) * (x % 128 % 2 ^ (32 - 7 * n)) < 2 ^ (7 * (n + 1)) := by
      have hb : 2 ^ (7 * n) * (x % 128 % 2 ^ (32 - 7 * n)) ≤ 2 ^ (7 * n) * 127 :=
        Nat.mul_le_mul_left _ (by
          have := Nat.mod_le (x % 128) (2 ^ (32 - 7 * n))
          omega)
      have hc : 2 ^ (7 * n) * 128 = 2 ^ (7 * n) * 127 + 2 ^ (7 * n) := by
        rw [show (128 : Nat) = 127 + 1 by norm_num, Nat.mul_add, Nat.mul_one]
      rw [hpow]
      omega
    have hmodlt : x % 128 % 2 ^ (32 - 7 * n) < 2 ^ (32 - 7 * n) :=
      Nat.mod_lt _ (Nat.pos_pow_of_pos _ (by norm_num))
    have hlt' : 2 ^ (7 * n) * (x % 128 % 2 ^ (32 - 7 * n)) < 4294967296 := by
      have hb : 2 ^ (7 * n) * (x % 128 % 2 ^ (32 - 7 * n)) ≤
          2 ^ (7 * n) * (2 ^ (32 - 7 * n) - 1) := Nat.mul_le_mul_left _ (by omega)
      have he2 : 2 ^ (7 * n) * (2 ^ (32 - 7 * n) - 1) = 4294967296 - 2 ^ (7 * n) := by
        rw [Nat.mul_sub, Nat.mul_one]
        congr 1
        exact hsplit.symm
      have hpos : 0 < 2 ^ (7 * n) := Nat.pos_pow_of_pos _ (by norm_num)
      omega
    have hr2 : r + 2 ^ (7 * n) * (x % 128 % 2 ^ (32 - 7 * n)) < 4294967296 := by
      have hb : 2 ^ (7 * n) * (x % 128 % 2 ^ (32 - 7 * n)) ≤
          2 ^ (7 * n) * (2 ^ (32 - 7 * n) - 1) := Nat.mul_le_mul_left _ (by omega)
      have he2 : 2 ^ (7 * n) * (2 ^ (32 - 7 * n) - 1) = 4294967296 - 2 ^ (7 * n) := by
        rw [Nat.mul_sub, Nat.mul_one]
        congr 1
        exact hsplit.symm
      have hpos : 0 < 2 ^ (7 * n) := Nat.pos_pow_of_pos _ (by norm_num)
      omega
    have hrec := ih (n + 1) (r + 2 ^ (7 * n) * (x % 128 % 2 ^ (32 - 7 * n)))
      (by simp only [List.length_cons] at h1; omega) hr1 hr2
    show orAccum xs (n + 1) (r ||| (((x &&& 127) <<< ((7 * n) % 32)) % 4294967296)) = _
    rw [hlor, hrec]
    have hme : 2 ^ (7 * n) * (x % 128 % 2 ^ (32 - 7 * n)) % 4294967296 =
        2 ^ (7 * n) * (x % 128) % 4294967296 := by
      rw [Nat.mod_eq_of_lt hlt']
      conv_rhs => rw [hsplit]
      rw [Nat.mul_mod_mul_left]
    have hpr : 2 ^ (7 * n) * varintPayload (x :: xs) =
        2 ^ (7 * n) * (x % 128) + 2 ^ (7 * (n + 1)) * varintPayload xs := by
      show 2 ^ (7 * n) * ((x % 128) + 128 * varintPayload xs) = _
      rw [Nat.mul_add, hpow]
      ring
    rw [hpr]
    omega

lemma toInt32_mod (n : Nat) : toInt32 (n % 4294967296) = toInt32 n := by
  have h : n % 4294967296 % 4294967296 = n % 4294967296 := by omega
  simp only [toInt32, h]

/-- A varint whose continuation bytes `ws` are followed by a terminating
byte `b`, all within the 5-byte limit, decodes to its little-endian 7-bit
payload (as a signed 32-bit value) and consumes `ws.length + 1` bytes. -/
lemma rvAux2_done (b : Nat) (tail : List Nat) :
    ∀ (ws : List Nat) (n r : Nat), n + ws.length + 1 ≤ 5 →
      (∀ w ∈ ws, w &&& 128 ≠ 0) → b &&& 128 = 0 →
      rvAux2 (ws ++ b :: tail) n r =
        Except.ok (some (toInt32 (orAccum (ws ++ [b]) n r), n + ws.length + 1)) := by
  intro ws
  induction ws with
  | nil =>
    intro n r h1 h2 h3
    simp only [List.nil_append, rvAux2]
    rw [if_neg (by omega), if_neg (by simp [h3])]
    simp [orAccum]
  | cons w ws ih =>
    intro n r h1 h2 h3
    simp only [List.cons_append, rvAux2, List.append_eq]
    rw [if_neg (by simp only [List.length_cons] at h1; omega)]
    rw [if_pos (h2 w (List.mem_cons_self w ws))]
    rw [ih (n + 1) _ (by simp only [List.length_cons] at h1; omega)
      (fun w' hw' => h2 w' (List.mem_cons_of_mem w hw')) h3]
    simp only [List.cons_append, orAccum, List.length_cons]
    have hlen : n + 1 + ws.length + 1 = n + (ws.length + 1) + 1 := by omega
    rw [hlen]

/-- Five continuation bytes followed by any sixth byte make `readVarInt`
throw (`VarInt too big`): the error fires before the sixth byte's
continuation bit is even consulted. -/
lemma rvAux2_err (b : Nat) (tail : List Nat) :
    ∀ (ws : List Nat) (n r : Nat), n + ws.length = 5 →
      (∀ w ∈ ws, w &&& 128 ≠ 0) →
      rvAux2 (ws ++ b :: tail) n r = Except.error () := by
  intro ws
  induction ws with
  | nil =>
    intro n r h1 h2
    simp only [List.length_nil, Nat.add_zero] at h1
    simp only [List.nil_append, rvAux2]
    rw [if_pos (by omega)]
  | cons w ws ih =>
    intro n r h1 h2
    simp only [List.cons_append, rvAux2, List.append_eq]
    rw [if_neg (by simp only [List.length_cons] at h1; omega)]
    rw [if_pos (h2 w (List.mem_cons_self w ws))]
    exact ih (n + 1) _ (by simp only [List.length_cons] at h1; omega)
      (fun w' hw' => h2 w' (List.mem_cons_of_mem w hw'))

/-- If the buffer ends while every available byte still has its
continuation bit set (at most five of them), the decoder reports
"incomplete" rather than an error. -/
lemma rvAux2_more :
    ∀ (ws : List Nat) (n r : Nat), n + ws.length ≤ 5 →
      (∀ w ∈ ws, w &&& 128 ≠ 0) →
      rvAux2 ws n r = Except.ok none := by
  intro ws
  induction ws with
  | nil =>
    intro n r h1 h2
    rfl
  | cons w ws ih =>
    intro n r h1 h2
    simp only [rvAux2]
    rw [if_neg (by simp only [List.length_cons] at h1; omega)]
    rw [if_pos (h2 w (List.mem_cons_self w ws))]
    exact ih (n + 1) _ (by simp only [List.length_cons] at h1; omega)
      (fun w' hw' => h2 w' (List.mem_cons_of_mem w hw'))

lemma readVarInt_at_offset (head x : List Nat) :
    readVarInt (head ++ x) head.length = rvAux2 x 0 0 := by
  rw [readVarInt_eq_rvAux2, List.drop_left]

/-- C8: `readVarInt` assembles 7 payload bits per byte little-endian (the
high bit is the continuation flag) into a signed 32-bit value; a field
whose first five bytes all carry the continuation flag is a fatal
`VarInt too big` error as soon as a sixth byte exists — distinct from the
"need more data" result returned when the buffer ends first — and inside
`onClientData` a malformed varint closes the connection immediately
(`routed` is set, so no chunk is ever parsed again). -/
theorem c8_varint_error_handling :
    (∀ (head ws : List Nat) (b : Nat) (tail : List Nat),
      ws.length + 1 ≤ 5 → (∀ w ∈ ws, w &&& 128 ≠ 0) → b &&& 128 = 0 →
      readVarInt (head ++ (ws ++ b :: tail)) head.length =
        Except.ok (some (toInt32 (varintPayload (ws ++ [b])), ws.length + 1))) ∧
    (∀ (head ws : List Nat) (b : Nat) (tail : List Nat),
      ws.length = 5 → (∀ w ∈ ws, w &&& 128 ≠ 0) →
      readVarInt (head ++ (ws ++ b :: tail)) head.length = Except.error ()) ∧
    (∀ (head ws : List Nat), ws.length ≤ 5 → (∀ w ∈ ws, w &&& 128 ≠ 0) →
      readVarInt (head ++ ws) head.length = Except.ok none) ∧
    (∀ (ws : List Nat) (b : Nat) (rest : List Nat),
      ws.length = 5 → (∀ w ∈ ws, w &&& 128 ≠ 0) →
      parseHandshake (ws ++ b :: rest) = ParseOut.err) ∧
    (∀ routes (st : MState) (chunk : List Nat), st.routed = false →
      parseHandshake (st.buffer ++ chunk) = ParseOut.err →
      stepM routes st (Ev.data chunk) =
        { st with buffer := st.buffer ++ chunk, routed := true,
                  acts := st.acts ++ [Act.closeErr] }) ∧
    (∀ routes (st : MState) (chunk : List Nat), st.routed = true →
      stepM routes st (Ev.data chunk) = st) := by
  refine ⟨?_, ?_, ?_, ?_, ?_, ?_⟩
  · intro head ws b tail h1 h2 h3
    rw [readVarInt_at_offset]
    rw [rvAux2_done b tail ws 0 0 (by omega) h2 h3]
    have ho := orAccum_eq (ws ++ [b]) 0 0
      (by simp only [List.length_append, List.length_cons, List.length_nil]; omega)
      (by norm_num) (by norm_num)
    simp only [Nat.mul_zero, pow_zero, one_mul, Nat.zero_add] at ho
    rw [ho, toInt32_mod]
    norm_num
  · intro head ws b tail h1 h2
    rw [readVarInt_at_offset]
    exact rvAux2_err b tail ws 0 0 (by omega) h2
  · intro head ws h1 h2
    rw [readVarInt_at_offset]
    exact rvAux2_more ws 0 0 (by omega) h2
  · intro ws b rest h1 h2
    have herr : readVarInt (ws ++ b :: rest) 0 = Except.error () := by
      rw [readVarInt_eq_rvAux2, List.drop_zero]
      exact rvAux2_err b rest ws 0 0 (by omega) h2
    simp only [parseHandshake, herr]
  · intro routes st chunk hr hp
    simp [stepM, hr, hp]
  · intro routes st chunk hr
    simp [stepM, hr]

/-- C8 witness: the theorem instantiated at a 2-byte varint at offset 1
(value 763), a 6-byte overlong varint (fatal), a truncated all-continuation
buffer (need more data), a handshake whose length field is malformed, and
concrete connection states for the close-and-never-retry behaviour. -/
theorem c8_varint_error_handling_witness :
    readVarInt ([9] ++ ([251] ++ 5 :: [77])) 1 =
      Except.ok (some (toInt32 (varintPayload ([251] ++ [5])), 2)) ∧
    readVarInt ([] ++ ([128, 129, 130, 131, 132] ++ 7 :: [])) 0 = Except.error () ∧
    readVarInt ([3] ++ [128, 128]) 1 = Except.ok none ∧
    parseHandshake ([128, 128, 128, 128, 128] ++ 0 :: [1, 2]) = ParseOut.err ∧
    stepM [] { buffer := [128, 128, 128, 128, 128], routed := false, pending := 0, acts := [] }
        (Ev.data [0]) =
      { buffer := [128, 128, 128, 128, 128] ++ [0], routed := true, pending := 0,
        acts := [] ++ [Act.closeErr] } ∧
    stepM [] { buffer := [1], routed := true, pending := 0, acts := [] } (Ev.data [2]) =
      { buffer := [1], routed := true, pending := 0, acts := [] } :=
  ⟨c8_varint_error_handling.1 [9] [251] 5 [77] (by decide) (by decide) (by decide),
   c8_varint_error_handling.2.1 [] [128, 129, 130, 131, 132] 7 [] (by decide) (by decide),
   c8_varint_error_handling.2.2.1 [3] [128, 128] (by decide) (by decide),
   c8_varint_error_handling.2.2.2.1 [128, 128, 128, 128, 128] 0 [1, 2] (by decide) (by decide),
   c8_varint_error_handling.2.2.2.2.1 []
     { buffer := [128, 128, 128, 128, 128], routed := false, pending := 0, acts := [] }
     [0] rfl (by decide),
   c8_varint_error_handling.2.2.2.2.2 []
     { buffer := [1], routed := true, pending := 0, acts := [] } [2] rfl⟩

/-- C1: feeding a valid handshake to `onClientData` in 1..N consecutive
nonempty fragments of arbitrary sizes leaves the connection in exactly the
state produced by the unsplit input — same buffer, same routed flag, same
pending provider queries, same emitted connections, hence the same decoded
host (and the same raw bytes, port field included) — and every proper
prefix of the fragments parses as "need more data", never as an error. -/
theorem c1_fragmented_handshake (routes : List (List Char × RouteV))
    (frags : List (List Nat)) (bs rawHost : List Nat)
    (hjoin : frags.flatten = bs) (hne : ∀ f ∈ frags, f ≠ [])
    (hv : parseHandshake bs = ParseOut.done rawHost) (he : packetExact bs = true) :
    runM routes (frags.map Ev.data) = runM routes [Ev.data bs] ∧
    ∀ k, k < frags.length → parseHandshake ((frags.take k).flatten) = ParseOut.more :=
  ⟨runM_frags routes frags bs rawHost hjoin hne hv he,
   flatten_take_more frags bs hjoin hne he⟩

/-- C1 witness: the demo handshake split into three fragments (3 + 9 + 10
bytes) drives the machine to the same state as the unsplit packet, and the
two-fragment prefix still reports "need more data". -/
theorem c1_fragmented_handshake_witness :
    runM localRoutesDemo
        ([hsDemo.take 3, (hsDemo.drop 3).take 9, hsDemo.drop 12].map Ev.data) =
      runM localRoutesDemo [Ev.data hsDemo] ∧
    parseHandshake (([hsDemo.take 3, (hsDemo.drop 3).take 9, hsDemo.drop 12].take 2).flatten) =
      ParseOut.more :=
  have h := c1_fragmented_handshake localRoutesDemo
    [hsDemo.take 3, (hsDemo.drop 3).take 9, hsDemo.drop 12] hsDemo mcHostBytes
    (by decide) (by decide) (by decide) (by decide)
  ⟨h.1, h.2 2 (by decide)⟩

/-- C7: `proxyToBackend` sends the buffered handshake bytes to the backend
first, unmodified, then splices; therefore the backend's incoming stream is
exactly the client's stream — in particular the prefix through the end of
the handshake packet is byte-for-byte the client's raw bytes (not the
normalized host), whatever fragmentation delivered them. -/
theorem c7_forward_buffered_bytes :
    (∀ buffer rest : List Nat,
      proxyToBackendBytes buffer rest = buffer ++ rest ∧
      (proxyToBackendBytes buffer rest).take buffer.length = buffer) ∧
    (∀ routes (frags : List (List Nat)) (bs rawHost : List Nat) (r : RouteV),
      frags.flatten = bs → (∀ f ∈ frags, f ≠ []) →
      parseHandshake bs = ParseOut.done rawHost → packetExact bs = true →
      findRouteFor routes (normalizeHost (asciiDecode rawHost)) = some r →
      r.type = "local".data →
      (runM routes (frags.map Ev.data)).acts =
        [Act.backend bs (r.host.getD ("127.0.0.1".data)) (r.port.getD 25565)]) := by
  constructor
  · intro buffer rest
    exact ⟨rfl, List.take_left buffer rest⟩
  · intro routes frags bs rawHost r hjoin hne hv he hroute htype
    rw [runM_frags routes frags bs rawHost hjoin hne hv he]
    simp only [runM, List.map_cons, List.map_nil, List.foldl_cons, List.foldl_nil]
    simp only [stepM, mInit, Bool.false_eq_true, if_false, List.nil_append, hv, hroute]
    rw [htype]
    rw [if_neg (by decide), if_pos rfl]

/-- C7 witness: the theorem instantiated at concrete byte lists and at the
demo handshake split in two, routed by the demo local route. -/
theorem c7_forward_buffered_bytes_witness :
    (proxyToBackendBytes [1, 2, 3] [4, 5] = [1, 2, 3] ++ [4, 5] ∧
      (proxyToBackendBytes [1, 2, 3] [4, 5]).take 3 = [1, 2, 3]) ∧
    (runM localRoutesDemo ([hsDemo.take 5, hsDemo.drop 5].map Ev.data)).acts =
      [Act.backend hsDemo (localRouteDemo.host.getD ("127.0.0.1".data))
        (localRouteDemo.port.getD 25565)] :=
  ⟨c7_forward_buffered_bytes.1 [1, 2, 3] [4, 5],
   c7_forward_buffered_bytes.2 localRoutesDemo [hsDemo.take 5, hsDemo.drop 5] hsDemo
     mcHostBytes localRouteDemo (by decide) (by decide) (by decide) (by decide)
     (by decide) (by decide)⟩

/-- C10 counterexample: with an on-demand (`ec2`) route, `onClientData`
suspends at `await describeInstance()` before setting `routed`; a second
chunk arriving during the await re-parses the grown buffer and starts a
second describe, and both resumptions call `proxyToBackend` — two routing
decisions and two backend connections for one client connection. -/
theorem c10_counterexample :
    decisions (runM ec2RoutesDemo
      [Ev.data hsDemo, Ev.data [2],
       Ev.describeDone (DescribeRes.ok true (some ("1.2.3.4".data))),
       Ev.describeDone (DescribeRes.ok true (some ("1.2.3.4".data)))]) = 2 ∧
    (runM ec2RoutesDemo
      [Ev.data hsDemo, Ev.data [2],
       Ev.describeDone (DescribeRes.ok true (some ("1.2.3.4".data))),
       Ev.describeDone (DescribeRes.ok true (some ("1.2.3.4".data)))]).acts =
      [Act.backend (hsDemo ++ [2]) ("1.2.3.4".data) 25565,
       Act.backend (hsDemo ++ [2]) ("1.2.3.4".data) 25565] := by
  decide

lemma countDescribes_cons (e : Ev) (evs : List Ev) :
    countDescribes (e :: evs) = countDescribes [e] + countDescribes evs := by
  cases e with
  | data c => simp [countDescribes, List.filter_cons]
  | describeDone r =>
    simp [countDescribes, List.filter_cons]
    omega

lemma decisions_step_bound (routes : List (List Char × RouteV)) (st : MState) (ev : Ev) :
    decisions (stepM routes st ev) +
        (if (stepM routes st ev).routed = true then 0 else 1) ≤
      decisions st + (if st.routed = true then 0 else 1) + countDescribes [ev] := by
  cases ev with
  | data chunk =>
    by_cases hr : st.routed = true
    · simp [stepM, hr]
    · have hr' : st.routed = false := by
        cases h : st.routed
        · rfl
        · exact absurd h hr
      cases hp : parseHandshake (st.buffer ++ chunk) with
      | more => simp [stepM, hr', hp, decisions, countDescribes]
      | err =>
        simp [stepM, hr', hp, decisions, List.filter_append, isDecision, countDescribes]
      | done rawHost =>
        cases hf : findRouteFor routes (normalizeHost (asciiDecode rawHost)) with
        | none =>
          simp [stepM, hr', hp, hf, decisions, List.filter_append, isDecision,
            countDescribes]
        | some route =>
          by_cases h1 : route.type = "ec2".data
          · simp [stepM, hr', hp, hf, h1, decisions, countDescribes]
          · by_cases h2 : route.type = "local".data
            · simp [stepM, hr', hp, hf, h1, h2, decisions, List.filter_append,
                isDecision, countDescribes]
            · simp [stepM, hr', hp, hf, h1, h2, decisions, List.filter_append,
                isDecision, countDescribes]
  | describeDone res =>
    by_cases hp : st.pending = 0
    · simp [stepM, hp, countDescribes]
    · cases res with
      | failed =>
        simp [stepM, hp, decisions, List.filter_append, isDecision, countDescribes]
      | ok running host =>
        cases running <;> cases host <;>
          simp [stepM, hp, decisions, List.filter_append, isDecision, countDescribes]

lemma decisions_foldl_bound (routes : List (List Char × RouteV)) :
    ∀ (evs : List Ev) (st : MState),
      decisions (List.foldl (stepM routes) st evs) +
          (if (List.foldl (stepM routes) st evs).routed = true then 0 else 1) ≤
        decisions st + (if st.routed = true then 0 else 1) + countDescribes evs := by
  intro evs
  induction evs with
  | nil =>
    intro st
    simp [countDescribes]
  | cons e evs ih =>
    intro st
    simp only [List.foldl_cons]
    have h1 := ih (stepM routes st e)
    have h2 := decisions_step_bound routes st e
    have h3 := countDescribes_cons e evs
    omega

/-- C10 (amended): once the `routed` flag is set, every later data chunk is
ignored — it can trigger no parse, route lookup, or connection — and on any
trace the number of routing decisions (backend connection, friendly kick,
or error close) is at most one plus the number of resumed
`describeInstance()` calls; in particular, with no on-demand describe in
the trace (every route decided synchronously) at most one decision is ever
made.  However — per the counterexample — chunks arriving while an `ec2`
describe is awaited can each start another describe whose resumption makes
a further decision, so "at most one backend connection ever" does not hold
unconditionally. -/
theorem c10_amended :
    (∀ routes (st : MState) (chunk : List Nat), st.routed = true →
      stepM routes st (Ev.data chunk) = st) ∧
    (∀ routes (evs : List Ev), decisions (runM routes evs) ≤ 1 + countDescribes evs) ∧
    (∀ routes (evs : List Ev), countDescribes evs = 0 →
      decisions (runM routes evs) ≤ 1) := by
  refine ⟨?_, ?_, ?_⟩
  · intro routes st chunk hr
    simp [stepM, hr]
  · intro routes evs
    have h := decisions_foldl_bound routes evs mInit
    have hinit : decisions mInit = 0 := rfl
    have hrinit : mInit.routed = false := rfl
    rw [hinit, hrinit] at h
    simp only [Bool.false_eq_true, if_false] at h
    simp only [runM]
    omega
  · intro routes evs h0
    have h := decisions_foldl_bound routes evs mInit
    have hinit : decisions mInit = 0 := rfl
    have hrinit : mInit.routed = false := rfl
    rw [hinit, hrinit, h0] at h
    simp only [Bool.false_eq_true, if_false] at h
    simp only [runM]
    omega

/-- C10 witness: the amended theorem instantiated — a routed connection
ignores a new chunk, and a describe-free trace makes exactly one decision. -/
theorem c10_amended_witness :
    stepM localRoutesDemo
        { buffer := hsDemo, routed := true, pending := 0, acts := [] } (Ev.data [7]) =
      { buffer := hsDemo, routed := true, pending := 0, acts := [] } ∧
    decisions (runM localRoutesDemo [Ev.data hsDemo, Ev.data [7]]) ≤ 1 :=
  ⟨c10_amended.1 localRoutesDemo
     { buffer := hsDemo, routed := true, pending := 0, acts := [] } [7] rfl,
   c10_amended.2.2 localRoutesDemo [Ev.data hsDemo, Ev.data [7]] (by decide)⟩

lemma takeWhile_eq_of_all (p : Char → Bool) (xs : List Char) (y : Char) (ys : List Char)
    (h1 : ∀ c ∈ xs, p c = true) (h2 : p y = false) :
    (xs ++ y :: ys).takeWhile p = xs := by
  induction xs with
  | nil => simp [List.takeWhile_cons, h2]
  | cons a as ih =>
    simp only [List.cons_append, List.takeWhile_cons, h1 a (List.mem_cons_self a as), if_true]
    rw [ih (fun c hc => h1 c (List.mem_cons_of_mem a hc))]

lemma colon_decomp (r : List Char) (h : ':' ∈ r) :
    ∃ t, r = r.takeWhile (fun c => c ≠ ':') ++ ':' :: t := by
  induction r with
  | nil => cases h
  | cons a as ih =>
    by_cases ha : a = ':'
    · subst ha
      refine ⟨as, ?_⟩
      simp [List.takeWhile_cons]
    · have h' : ':' ∈ as := by
        cases h with
        | head => exact absurd rfl ha
        | tail _ hm => exact hm
      obtain ⟨t, ht⟩ := ih h'
      refine ⟨t, ?_⟩
      have hpa : (fun c => decide (c ≠ ':')) a = true := by
        simp [ha]
      simp only [List.takeWhile_cons]
      rw [if_pos hpa]
      simpa using congrArg (fun x => a :: x) ht

lemma drop_length_takeWhile (p : Char → Bool) (xs : List Char) :
    xs.drop (xs.takeWhile p).length = xs.dropWhile p := by
  induction xs with
  | nil => rfl
  | cons a as ih =>
    by_cases hp : p a
    · simp [List.takeWhile_cons, List.dropWhile_cons, hp, ih]
    · simp [List.takeWhile_cons, List.dropWhile_cons, hp]

lemma head_dropWhile_ne_colon (r : List Char) (h : ':' ∈ r) :
    (r.dropWhile (fun c => c ≠ ':')).head? = some ':' := by
  induction r with
  | nil => cases h
  | cons a as ih =>
    by_cases ha : a = ':'
    · subst ha
      simp [List.dropWhile_cons]
    · have h' : ':' ∈ as := by
        cases h with
        | head => exact absurd rfl ha
        | tail _ hm => exact hm
      rw [List.dropWhile_cons, if_pos (by simp [ha])]
      exact ih h' 

lemma stripPortSuffix_eq_specDropPort (l : List Char) :
    stripPortSuffix l = specDropPort l := by
  by_cases hcs : (l.reverse.takeWhile Char.isDigit) ≠ [] ∧
      (l.reverse.drop (l.reverse.takeWhile Char.isDigit).length).head? = some ':'
  · obtain ⟨hne, hcol⟩ := hcs
    have hsplit : l.reverse.takeWhile Char.isDigit ++ l.reverse.dropWhile Char.isDigit =
        l.reverse := List.takeWhile_append_dropWhile _ _
    have hdropeq : l.reverse.drop (l.reverse.takeWhile Char.isDigit).length =
        l.reverse.dropWhile Char.isDigit := drop_length_takeWhile Char.isDigit l.reverse
    have hcol2 := hcol
    rw [hdropeq] at hcol2
    obtain ⟨t0, ht0⟩ : ∃ t0, l.reverse.dropWhile Char.isDigit = ':' :: t0 := by
      cases hE : l.reverse.dropWhile Char.isDigit with
      | nil =>
        rw [hE] at hcol2
        exact absurd hcol2 (by simp)
      | cons u us =>
        rw [hE] at hcol2
        simp only [List.head?_cons, Option.some_inj] at hcol2
        exact ⟨us, by rw [hcol2]⟩
    have hrds : l.reverse = l.reverse.takeWhile Char.isDigit ++ ':' :: t0 := by
      conv_lhs => rw [← hsplit, ht0]
    have hdigits : ∀ c ∈ l.reverse.takeWhile Char.isDigit, c.isDigit = true :=
      fun c hc => List.mem_takeWhile_imp hc
    have hsuf : l.reverse.takeWhile (fun c => c ≠ ':') = l.reverse.takeWhile Char.isDigit := by
      conv_lhs => rw [hrds]
      apply takeWhile_eq_of_all
      · intro c hc
        have hd := hdigits c hc
        refine decide_eq_true ?_
        intro hcc
        rw [hcc] at hd
        exact absurd hd (by decide)
      · simp
    have hmem : ':' ∈ l := by
      have hm : ':' ∈ l.reverse := by
        rw [hrds]
        simp
      simpa [List.mem_reverse] using hm
    simp only [stripPortSuffix, specDropPort]
    rw [if_pos hmem, hsuf]
    rw [if_pos ⟨hne, hdigits⟩, if_pos ⟨hne, hcol⟩]
  · simp only [specDropPort]
    rw [if_neg hcs]
    by_cases hmem : ':' ∈ l
    · simp only [stripPortSuffix]
      rw [if_pos hmem, if_neg ?inner]
      case inner =>
        rintro ⟨hsne, hsdig⟩
        obtain ⟨t0, ht0⟩ := colon_decomp l.reverse (by simpa [List.mem_reverse] using hmem)
        have hds : l.reverse.takeWhile Char.isDigit =
            l.reverse.takeWhile (fun c => c ≠ ':') := by
          conv_lhs => rw [ht0]
          apply takeWhile_eq_of_all
          · exact hsdig
          · decide
        apply hcs
        refine ⟨?_, ?_⟩
        · rw [hds]
          exact hsne
        · rw [hds, drop_length_takeWhile]
          exact head_dropWhile_ne_colon l.reverse (by simpa [List.mem_reverse] using hmem)
    · simp only [stripPortSuffix]
      rw [if_neg hmem]

lemma wildcardMatch_iff (p h : List Char) : wildcardMatch p h = true ↔ SpecWildcard p h := by
  constructor
  · intro hw
    simp only [wildcardMatch, Bool.and_eq_true] at hw
    obtain ⟨hpre, hsuf⟩ := hw
    have hp : ['*', '.'] <+: p := by rwa [← List.isPrefixOf_iff_prefix]
    obtain ⟨t, ht⟩ := hp
    refine ⟨t, by rw [← ht]; rfl, ?_⟩
    have hd : p.drop 1 = '.' :: t := by
      rw [← ht]
      rfl
    rw [hd] at hsuf
    rwa [List.isSuffixOf_iff_suffix] at hsuf
  · rintro ⟨x, rfl, hs⟩
    simp only [wildcardMatch, Bool.and_eq_true]
    constructor
    · rw [ List.isPrefixOf_iff_prefix]
      exact ⟨x, rfl⟩
    · rw [List.isSuffixOf_iff_suffix]
      exact hs

lemma bareMatch_iff (p h : List Char) : bareMatch p h = true ↔ SpecBare p h := by
  simp only [bareMatch, SpecBare, Bool.and_eq_true, Bool.or_eq_true, beq_iff_eq,
    Bool.not_eq_true', decide_eq_true_eq, List.isSuffixOf_iff_suffix]
  constructor
  · rintro ⟨⟨hc, hl⟩, hm⟩
    refine ⟨?_, by omega, hm⟩
    simp [List.elem_iff] at hc
    exact hc
  · rintro ⟨hc, hl, hm⟩
    refine ⟨⟨?_, by omega⟩, hm⟩
    simp [List.elem_iff]
    exact hc

/-- C2: `findRouteFor` resolves with strict precedence exact > wildcard >
bare-suffix — an exact table hit wins, otherwise the first wildcard match,
otherwise the first bare-suffix match, otherwise an explicit no-route
`none`; a wildcard pattern `*.X` matches iff the host ends with `.X`, and a
bare pattern (no `*`, at least two labels) matches iff the host equals it
or ends with `.` followed by it.  On the claim's example table,
`a.x.com ↦ L1`, `b.x.com ↦ L2`, `x.com ↦ L3`, `y.com ↦` no route. -/
theorem c2_route_precedence :
    (∀ p h : List Char, wildcardMatch p h = true ↔ SpecWildcard p h) ∧
    (∀ p h : List Char, bareMatch p h = true ↔ SpecBare p h) ∧
    (∀ routes (host : List Char) kv0, host ≠ [] →
      routes.find? (fun kv => kv.fst == host) = some kv0 →
      findRouteFor routes host = some kv0.snd) ∧
    (∀ routes (host : List Char) kv0, host ≠ [] →
      routes.find? (fun kv => kv.fst == host) = none →
      routes.find? (fun kv => wildcardMatch kv.fst host) = some kv0 →
      findRouteFor routes host = some kv0.snd) ∧
    (∀ routes (host : List Char) kv0, host ≠ [] →
      routes.find? (fun kv => kv.fst == host) = none →
      routes.find? (fun kv => wildcardMatch kv.fst host) = none →
      routes.find? (fun kv => bareMatch kv.fst host) = some kv0 →
      findRouteFor routes host = some kv0.snd) ∧
    (∀ routes (host : List Char), host ≠ [] →
      routes.find? (fun kv => kv.fst == host) = none →
      routes.find? (fun kv => wildcardMatch kv.fst host) = none →
      routes.find? (fun kv => bareMatch kv.fst host) = none →
      findRouteFor routes host = none) ∧
    (findRouteFor xTableDemo ("a.x.com".data) = some xRouteL1 ∧
      findRouteFor xTableDemo ("b.x.com".data) = some xRouteL2 ∧
      findRouteFor xTableDemo ("x.com".data) = some xRouteL3 ∧
      findRouteFor xTableDemo ("y.com".data) = none) := by
  refine ⟨wildcardMatch_iff, bareMatch_iff, ?_, ?_, ?_, ?_, by decide⟩
  · intro routes host kv0 hh h1
    simp only [findRouteFor, if_neg hh, h1]
  · intro routes host kv0 hh h1 h2
    simp only [findRouteFor, if_neg hh, h1, h2]
  · intro routes host kv0 hh h1 h2 h3
    simp only [findRouteFor, if_neg hh, h1, h2, h3]
  · intro routes host hh h1 h2 h3
    simp only [findRouteFor, if_neg hh, h1, h2, h3]

/-- C2 witness: the theorem's precedence conjuncts instantiated on the demo
table — an exact hit for `a.x.com`, a wildcard hit for `b.x.com`. -/
theorem c2_route_precedence_witness :
    findRouteFor xTableDemo ("a.x.com".data) = some ("a.x.com".data, xRouteL1).snd ∧
    findRouteFor xTableDemo ("b.x.com".data) = some ("*.x.com".data, xRouteL2).snd :=
  ⟨c2_route_precedence.2.2.1 xTableDemo ("a.x.com".data) ("a.x.com".data, xRouteL1)
     (by decide) (by decide),
   c2_route_precedence.2.2.2.1 xTableDemo ("b.x.com".data) ("*.x.com".data, xRouteL2)
     (by decide) (by decide) (by decide)⟩

/-- C9: `normalizeHost` is exactly the spec's five steps in order — trim
whitespace, case-fold, drop one trailing root-label dot, drop a trailing
`:<digits>` suffix, drop a leading `www.` label (the port step is stated
spec-side as removing the maximal trailing digit run preceded by a colon,
and proved equal to the code's `lastIndexOf`-based strip) — while the raw
handshake bytes are preserved verbatim for replay: the demo host
`www.MC.Example.COM.` routes via its normalized form, yet the backend is
handed the original bytes. -/
theorem c9_host_normalization :
    (∀ h : List Char, normalizeHost h =
      dropWww (specDropPort (dropTrailingDot (toLowerChars (trimChars h))))) ∧
    normalizeHost (asciiDecode rawHostDemoBytes) = "mc.example.com".data ∧
    (runM localRoutesDemo [Ev.data hsRawDemo]).acts =
      [Act.backend hsRawDemo ("192.168.0.5".data) 25570] := by
  refine ⟨?_, by decide, by decide⟩
  intro h
  by_cases hh : h = []
  · subst hh
    rfl
  · simp only [normalizeHost, if_neg hh]
    rw [stripPortSuffix_eq_specDropPort]
